import Mathlib

/-!
Shallow embedding of gopass-secret-service (Go) and proofs about its
specification claims.

Go strings are embedded as `List Char`; Go byte slices as `List Nat`
(each element < 256 where it matters); Go maps as association lists with
the zero-value-on-missing-key read semantics made explicit. Fallible Go
functions returning `(T, error)` become `Option T` (or `Except` where the
error kind matters). Randomness (UUIDs, IVs, DH private keys) and clock
reads are passed in as explicit arguments. The AES-128 block cipher is an
external library (`crypto/aes`); it is modelled as an abstract pair of
block functions, with the theorems hypothesising exactly the properties a
block cipher provides (inverse on 16-byte blocks, length preservation).
-/

/-- Go strings, embedded as lists of characters. -/
abbrev GoString := List Char

/-- Go byte slices, embedded as lists of naturals. -/
abbrev Bytes := List Nat

/-- `strings.SplitN(s, "/", 2)`: the part before the first `'/'`, and the
remainder after it when a `'/'` occurs. -/
def splitOnceSlash : GoString → GoString × Option GoString
  | [] => ([], none)
  | c :: rest =>
    if c = '/' then ([], some rest)
    else
      let r := splitOnceSlash rest
      (c :: r.1, r.2)

/-- `strings.Split(s, "/")`. -/
def splitSlash : GoString → List GoString
  | [] => [[]]
  | c :: rest =>
    if c = '/' then [] :: splitSlash rest
    else
      match splitSlash rest with
      | [] => [[c]]
      | a :: as => (c :: a) :: as

/-- `strings.TrimPrefix(s, p)`. -/
def goTrimPref (s p : GoString) : GoString :=
  if p.isPrefixOf s then s.drop p.length else s

namespace dbus

/-- `CollectionBasePath` from internal/dbus/types.go. -/
def CollectionBasePath : GoString := "/org/freedesktop/secrets/collection".toList

/-- `SessionBasePath` from internal/dbus/types.go. -/
def SessionBasePath : GoString := "/org/freedesktop/secrets/session".toList

/-- `AliasBasePath` from internal/dbus/types.go. -/
def AliasBasePath : GoString := "/org/freedesktop/secrets/aliases".toList

/-- `CollectionPath(name)`: `fmt.Sprintf("%s/%s", CollectionBasePath, name)`. -/
def CollectionPath (name : GoString) : GoString :=
  CollectionBasePath ++ ['/'] ++ name

/-- `ItemPath(collection, itemID)`. -/
def ItemPath (collection itemID : GoString) : GoString :=
  CollectionBasePath ++ ['/'] ++ collection ++ ['/'] ++ itemID

/-- `SessionPath(id)`. -/
def SessionPath (id : GoString) : GoString :=
  SessionBasePath ++ ['/'] ++ id

/-- `AliasPath(alias)`. -/
def AliasPath (a : GoString) : GoString :=
  AliasBasePath ++ ['/'] ++ a

/-- `ParseCollectionPath`: require the collection base-path as a proper
leading part, then take the first `/`-separated segment of the rest. -/
def ParseCollectionPath (path : GoString) : Option GoString :=
  if (CollectionBasePath ++ ['/']).isPrefixOf path then
    some (splitOnceSlash (goTrimPref path (CollectionBasePath ++ ['/']))).1
  else
    none

/-- `ParseItemPath`: require the base-path lead, then split the rest in two
at the first `/`; fail when there is no `/`. -/
def ParseItemPath (path : GoString) : Option (GoString × GoString) :=
  if (CollectionBasePath ++ ['/']).isPrefixOf path then
    match splitOnceSlash (goTrimPref path (CollectionBasePath ++ ['/'])) with
    | (_, none) => none
    | (a, some b) => some (a, b)
  else
    none

/-- `ParseSessionPath`. -/
def ParseSessionPath (path : GoString) : Option GoString :=
  if (SessionBasePath ++ ['/']).isPrefixOf path then
    some (goTrimPref path (SessionBasePath ++ ['/']))
  else
    none

/-- `IsCollectionPath`: base-path lead and no further `/`. -/
def IsCollectionPath (path : GoString) : Bool :=
  if (CollectionBasePath ++ ['/']).isPrefixOf path then
    !(goTrimPref path (CollectionBasePath ++ ['/'])).contains '/'
  else
    false

/-- `IsItemPath`: base-path lead and exactly two non-empty segments. -/
def IsItemPath (path : GoString) : Bool :=
  if (CollectionBasePath ++ ['/']).isPrefixOf path then
    match splitSlash (goTrimPref path (CollectionBasePath ++ ['/'])) with
    | [a, b] => !a.isEmpty && !b.isEmpty
    | _ => false
  else
    false

end dbus

/-! ### Transport crypto: internal/crypto/dh.go

`aes.BlockSize` is 16. The AES-128 block cipher obtained from
`aes.NewCipher` is external library code; it enters the model as a pair of
block functions `E`, `D` about which the theorems assume only what a block
cipher provides: `D` inverts `E` on 16-byte blocks and both preserve block
length. `cipher.NewCBCEncrypter` / `NewCBCDecrypter` chain the blocks as in
the Go standard library. The random IV is an explicit argument. -/

/-- Byte-wise XOR of two equal-length byte slices (CBC chaining step). -/
def xorBytes (a b : Bytes) : Bytes := List.zipWith (fun x y => x ^^^ y) a b

/-- Split a byte slice into 16-byte blocks, as CBC's CryptBlocks walks it. -/
def chunk16 (l : Bytes) : List Bytes :=
  if h : l = [] then [] else l.take 16 :: chunk16 (l.drop 16)
termination_by l.length
decreasing_by
  have : 0 < l.length := List.length_pos.mpr h
  simp only [List.length_drop]
  omega

/-- CBC encryption over a block list: `c_i = E (p_i XOR c_(i-1))`. -/
def cbcEncBlocks (E : Bytes → Bytes) : Bytes → List Bytes → List Bytes
  | _, [] => []
  | prev, b :: bs =>
    let c := E (xorBytes prev b)
    c :: cbcEncBlocks E c bs

/-- CBC decryption over a block list: `p_i = D c_i XOR c_(i-1)`. -/
def cbcDecBlocks (D : Bytes → Bytes) : Bytes → List Bytes → List Bytes
  | _, [] => []
  | prev, c :: cs => xorBytes prev (D c) :: cbcDecBlocks D c cs

/-- The PKCS#7 padding step of `DHSession.Encrypt`:
`padLen := 16 - len % 16` bytes, each of value `padLen`, are appended. -/
def pkcs7Pad (plaintext : Bytes) : Bytes :=
  plaintext ++
    List.replicate (16 - plaintext.length % 16) (16 - plaintext.length % 16)

/-- The PKCS#7 padding removal of `DHSession.Decrypt`: read the last byte
as `padLen`, require `padLen ∈ [1,16]`, `padLen ≤ len`, and all `padLen`
trailing bytes equal to `padLen`; strip them. -/
def pkcs7Unpad (decrypted : Bytes) : Option Bytes :=
  if decrypted.length = 0 then none
  else
    let padLen := decrypted.getLastD 0
    if padLen = 0 ∨ padLen > 16 ∨ padLen > decrypted.length then none
    else if (decrypted.drop (decrypted.length - padLen)).all
        (fun x => x == padLen) then
      some (decrypted.take (decrypted.length - padLen))
    else none

namespace DHSession

/-- `DHSession.Encrypt`: PKCS#7-pad, then CBC-encrypt under the session's
block cipher `E` with the random 16-byte IV `iv`; returns
`(parameters, ciphertext) = (iv, ct)`. -/
def Encrypt (E : Bytes → Bytes) (iv plaintext : Bytes) : Bytes × Bytes :=
  (iv, (cbcEncBlocks E iv (chunk16 (pkcs7Pad plaintext))).flatten)

/-- `DHSession.Decrypt`: require a 16-byte IV and a non-empty ciphertext
whose length is a multiple of 16; CBC-decrypt under `D`; validate and strip
the PKCS#7 padding. -/
def Decrypt (D : Bytes → Bytes) (parameters ciphertext : Bytes) :
    Option Bytes :=
  if parameters.length ≠ 16 then none
  else if ciphertext.length = 0 ∨ ciphertext.length % 16 ≠ 0 then none
  else pkcs7Unpad ((cbcDecBlocks D parameters (chunk16 ciphertext)).flatten)

end DHSession

/-! ### Crypto session dispatch: internal/crypto (Session interface)

`crypto.NewSession` selects between the `plain` identity codec and the
DH-AES codec. The DH key agreement itself (random exponent, HKDF) is
entropy and external library work; its product is the AES block cipher
pair carried by the session. -/

/-- A session's transport codec: `plain` or DH-AES with its derived block
cipher pair and the per-message random IV the `rand.Read` call would
produce next. -/
inductive CryptoSession
  | plain
  | dhAES (E D : Bytes → Bytes) (iv : Bytes)

/-- `Session.Encrypt` dispatch: `plain` is the identity with empty
parameters; DH-AES is `DHSession.Encrypt`. -/
def cryptoEncrypt : CryptoSession → Bytes → Bytes × Bytes
  | .plain, pt => ([], pt)
  | .dhAES E _ iv, pt => DHSession.Encrypt E iv pt

/-- `Session.Decrypt` dispatch: `plain` is the identity; DH-AES is
`DHSession.Decrypt`. -/
def cryptoDecrypt : CryptoSession → Bytes → Bytes → Option Bytes
  | .plain, _, ct => some ct
  | .dhAES _ D _, params, ct => DHSession.Decrypt D params ct

/-! ### Store data model: internal/store/store.go, gopass.go, mapper.go -/

/-- `store.ItemData`. Timestamps are seconds; `created = 0` is Go's zero
`time.Time`. -/
structure ItemData where
  id : GoString
  label : GoString
  secret : Bytes
  contentType : GoString
  attributes : List (GoString × GoString)
  created : Nat
  modified : Nat
deriving DecidableEq, Repr

/-- Go map read `m[k]` for a `map[string]string`: the zero value `""` when
the key is missing. -/
def goMapGet (m : List (GoString × GoString)) (k : GoString) : GoString :=
  (m.lookup k).getD []

/-- `matchesAttributes(item, attrs)` from gopass.go: every queried pair
must agree with the item's attribute map read (missing key reads `""`). -/
def matchesAttributes (item : ItemData) (attrs : List (GoString × GoString)) :
    Bool :=
  attrs.all (fun kv => goMapGet item.attributes kv.1 == kv.2)

/-- `GopassStore.SearchItems` restricted to one collection's loaded items:
keep the items whose attributes match the query. -/
def SearchItems (items : List ItemData) (attrs : List (GoString × GoString)) :
    List ItemData :=
  items.filter (fun it => matchesAttributes it attrs)

/-- `attributesMatch(a, b)` from collection.go: the two attribute maps are
exactly equal (same size, and every pair of `a` present in `b`). -/
def attributesMatch (a b : List (GoString × GoString)) : Bool :=
  a.length == b.length && a.all (fun kv => b.lookup kv.1 == some kv.2)

/-- `SanitizeName` from mapper.go: replace `/`, `\` and space by `_`. -/
def SanitizeName (name : GoString) : GoString :=
  name.map (fun c => if c = '/' ∨ c = '\\' ∨ c = ' ' then '_' else c)

/-- The write performed by `GopassStore.UpdateItem` given the re-read
`existing` record: creation time preserved, `Modified` bumped to now, and
an empty content-type replaced by the existing one. -/
def updItemWrite (existing item : ItemData) (id : GoString) (now : Nat) :
    ItemData :=
  { item with
    id := id
    created := existing.created
    modified := now
    contentType :=
      if item.contentType = [] then existing.contentType
      else item.contentType }

/-- `GopassStore.GetItem` on one collection's loaded items. -/
def GetItem (items : List ItemData) (id : GoString) : Option ItemData :=
  items.find? (fun it => it.id == id)

/-- `GopassStore.UpdateItem` on one collection's loaded items: fails when
the item is absent, else writes `updItemWrite`. -/
def UpdateItem (items : List ItemData) (id : GoString) (item : ItemData)
    (now : Nat) : Option (List ItemData) :=
  match GetItem items id with
  | none => none
  | some existing =>
    some (items.map (fun it =>
      if it.id == id then updItemWrite existing item id now else it))

/-- The write performed by `GopassStore.CreateItem`: a fresh id when none
was supplied, `Created` defaulted to now when unset, `Modified` set to
now, and content-type defaulted to `text/plain`. -/
def newItemWrite (item : ItemData) (freshId : GoString) (now : Nat) :
    ItemData :=
  { item with
    id := if item.id = [] then freshId else item.id
    created := if item.created = 0 then now else item.created
    modified := now
    contentType :=
      if item.contentType = [] then "text/plain".toList
      else item.contentType }

/-! ### Whole-store view for the store-level CreateItem
(GopassStore.CreateItem): collection metadata records plus item records,
keyed the way the gopass paths key them. -/

/-- The gopass-backed store state: collection `_meta` records (name ↦
label) and item records ((collection, id) ↦ item). -/
structure GStore where
  metas : List (GoString × GoString)
  entries : List ((GoString × GoString) × ItemData)
deriving Repr

/-- `GopassStore.GetCollection`'s existence test: the `_meta` record is
present, or some record lives under the collection's path. -/
def collectionKnown (g : GStore) (name : GoString) : Bool :=
  (g.metas.lookup name).isSome || g.entries.any (fun e => e.1.1 == name)

/-- `GopassStore.CreateCollection`: write the `_meta` record under the
sanitized name. -/
def storeCreateCollection (g : GStore) (name label : GoString) : GStore :=
  { g with metas := (SanitizeName name, label) :: g.metas }

/-- `GopassStore.CreateItem`: default the id, ensure the collection exists
(creating it with its own name as label), default `Created`, `Modified`
and the content-type, then write the item record. Returns the item id and
the new store. -/
def storeCreateItem (g : GStore) (collection : GoString) (item : ItemData)
    (freshId : GoString) (now : Nat) : GoString × GStore :=
  let id := if item.id = [] then freshId else item.id
  let g1 :=
    if collectionKnown g collection then g
    else storeCreateCollection g collection collection
  let written := newItemWrite item freshId now
  (id, { g1 with entries := ((collection, id), written) :: g1.entries })

/-! ### Aliases: GopassStore.GetAlias / Service.ReadAlias -/

/-- `GopassStore.GetAlias`: read the `_aliases` record (absent ↦ `none`);
missing or empty entries are errors, except that the alias `default`
falls back to the collection name `default`. -/
def GetAlias (aliasesRec : Option (List (GoString × GoString)))
    (a : GoString) : Option GoString :=
  match aliasesRec with
  | none => if a = "default".toList then some "default".toList else none
  | some sec =>
    match sec.lookup a with
    | some v =>
      if v = [] then
        if a = "default".toList then some "default".toList else none
      else some v
    | none => if a = "default".toList then some "default".toList else none

/-- `Service.ReadAlias`: the collection path of the alias target, or `/`
when `GetAlias` fails. -/
def ReadAlias (aliasesRec : Option (List (GoString × GoString)))
    (name : GoString) : GoString :=
  match GetAlias aliasesRec name with
  | none => "/".toList
  | some collName => dbus.CollectionPath collName

/-! ### Sessions: internal/service/session.go -/

/-- Bus error kinds from internal/service (errors.go). -/
inductive SSErr
  | NoSession
  | NoSuchObject
  | AlreadyExists
  | NotSupported
deriving DecidableEq, Repr

/-- An in-memory `Session` object. -/
structure SessionObj where
  id : GoString
  crypto : CryptoSession
  closed : Bool

/-- The session manager's state together with the set of session paths
exported on the bus. -/
structure SessionsState where
  sessions : List SessionObj
  exported : List GoString

/-- `SessionManager.GetSession`: parse the path, then look the id up in
the registry. -/
def GetSession (st : SessionsState) (path : GoString) : Option SessionObj :=
  match dbus.ParseSessionPath path with
  | none => none
  | some id => st.sessions.find? (fun s => s.id == id)

/-- `SessionManager.CreateSession` (successful export): register and
export a fresh open session. -/
def createSession (st : SessionsState) (c : CryptoSession) (id : GoString) :
    SessionsState × SessionObj :=
  let s : SessionObj := { id := id, crypto := c, closed := false }
  ({ sessions := s :: st.sessions,
     exported := dbus.SessionPath id :: st.exported }, s)

/-- `Session.Close`: a no-op when already closed; otherwise mark closed,
unexport the session path, and delete the registry entry. Returns the new
state and the closed object the caller retains. -/
def sessionClose (st : SessionsState) (s : SessionObj) :
    SessionsState × SessionObj :=
  if s.closed then (st, s)
  else
    ({ sessions := st.sessions.filter (fun t => !(t.id == s.id)),
       exported := st.exported.filter
         (fun p => !(p == dbus.SessionPath s.id)) },
     { s with closed := true })

/-- `SessionManager.CloseAll`: reset the registry to empty and unexport
every previously registered session's path. -/
def closeAllSessions (st : SessionsState) : SessionsState :=
  { sessions := [],
    exported := st.exported.filter
      (fun p => !(st.sessions.any (fun s => dbus.SessionPath s.id == p))) }

/-- `Session.Encrypt`: fails `NoSession` when the session is closed, else
runs the session's codec. -/
def sessionEncrypt (s : SessionObj) (pt : Bytes) :
    Except SSErr (Bytes × Bytes) :=
  if s.closed then .error .NoSession
  else .ok (cryptoEncrypt s.crypto pt)

/-- `Session.Decrypt`: fails `NoSession` when the session is closed, else
runs the session's codec (`NotSupported` stands for its crypto error). -/
def sessionDecrypt (s : SessionObj) (params ct : Bytes) :
    Except SSErr Bytes :=
  if s.closed then .error .NoSession
  else
    match cryptoDecrypt s.crypto params ct with
    | none => .error .NotSupported
    | some pt => .ok pt

/-! ### Bus-facing value types and property extraction -/

/-- The D-Bus `(oayays)` secret struct. -/
structure Secret where
  session : GoString
  parameters : Bytes
  value : Bytes
  contentType : GoString

/-- A bus variant value, as far as the service inspects one. -/
inductive Variant
  | vStr (s : GoString)
  | vStrMap (m : List (GoString × GoString))
  | vVarMap (m : List (GoString × Variant))
  | vBytes (b : Bytes)
  | vOther

/-- `CreateItem`'s label extraction: the `Item.Label` property when it is
a string variant, else `""`. -/
def extractItemLabel (properties : List (GoString × Variant)) : GoString :=
  match properties.lookup "org.freedesktop.Secret.Item.Label".toList with
  | some (.vStr s) => s
  | _ => []

/-- `CreateItem`'s attribute extraction: the `Item.Attributes` property as
a string map, or a variant map with its string values unwrapped, else
empty. -/
def extractItemAttributes (properties : List (GoString × Variant)) :
    List (GoString × GoString) :=
  match properties.lookup "org.freedesktop.Secret.Item.Attributes".toList with
  | some (.vStrMap m) => m
  | some (.vVarMap m) =>
    m.filterMap (fun kv =>
      match kv.2 with
      | .vStr s => some (kv.1, s)
      | _ => none)
  | _ => []

/-- `CreateCollection`'s label extraction. -/
def extractCollectionLabel (properties : List (GoString × Variant)) :
    GoString :=
  match properties.lookup
      "org.freedesktop.Secret.Collection.Label".toList with
  | some (.vStr s) => s
  | _ => []

/-! ### Service operations: collection.go, item half of session.go,
service half of part_003 -/

/-- `Collection.CreateItem` on one collection, acting on that collection's
loaded items. Returns the new item list, the returned item path, and the
signals emitted (as signal-name/path pairs). -/
def CollectionCreateItem (st : SessionsState) (items : List ItemData)
    (collectionName : GoString) (properties : List (GoString × Variant))
    (secret : Secret) (replace : Bool) (freshId : GoString) (now : Nat) :
    Except SSErr (List ItemData × GoString × List (GoString × GoString)) :=
  match GetSession st secret.session with
  | none => .error .NoSession
  | some s =>
    match sessionDecrypt s secret.parameters secret.value with
    | .error _ => .error .NotSupported
    | .ok plaintext =>
      let label := extractItemLabel properties
      let attributes := extractItemAttributes properties
      let existingItem :=
        if attributes.length > 0 then
          (SearchItems items attributes).find?
            (fun it => attributesMatch it.attributes attributes)
        else none
      match existingItem with
      | some existing =>
        if replace then
          let updated :=
            { existing with
              secret := plaintext
              contentType := secret.contentType
              label := if label ≠ [] then label else existing.label }
          match UpdateItem items existing.id updated now with
          | none => .error .NotSupported
          | some items2 =>
            .ok (items2, dbus.ItemPath collectionName existing.id,
              [("ItemChanged".toList,
                dbus.ItemPath collectionName existing.id)])
        else
          .ok (items, dbus.ItemPath collectionName existing.id, [])
      | none =>
        let item : ItemData :=
          { id := freshId
            label := label
            secret := plaintext
            contentType := secret.contentType
            attributes := attributes
            created := 0
            modified := 0 }
        let written := newItemWrite item freshId now
        .ok (items ++ [written], dbus.ItemPath collectionName freshId,
          [("ItemCreated".toList, dbus.ItemPath collectionName freshId)])

/-- `Item.GetSecret`: resolve the session or fail `NoSession`; read the
item or fail `NoSuchObject`; encrypt with the session codec. -/
def ItemGetSecret (st : SessionsState) (items : List ItemData)
    (itemId sessionPath : GoString) : Except SSErr Secret :=
  match GetSession st sessionPath with
  | none => .error .NoSession
  | some s =>
    match GetItem items itemId with
    | none => .error .NoSuchObject
    | some it =>
      match sessionEncrypt s it.secret with
      | .error _ => .error .NotSupported
      | .ok (params, ct) =>
        .ok { session := sessionPath, parameters := params, value := ct,
              contentType := it.contentType }

/-- `Item.SetSecret`: resolve the session or fail `NoSession`; decrypt;
load the stored item; overwrite secret and content-type; persist through
`UpdateItem`; emit `ItemChanged`. -/
def ItemSetSecret (st : SessionsState) (items : List ItemData)
    (collectionName itemId : GoString) (secret : Secret) (now : Nat) :
    Except SSErr (List ItemData × List (GoString × GoString)) :=
  match GetSession st secret.session with
  | none => .error .NoSession
  | some s =>
    match sessionDecrypt s secret.parameters secret.value with
    | .error _ => .error .NotSupported
    | .ok plaintext =>
      match GetItem items itemId with
      | none => .error .NoSuchObject
      | some stored =>
        let item :=
          { stored with
            secret := plaintext
            contentType := secret.contentType }
        match UpdateItem items itemId item now with
        | none => .error .NotSupported
        | some items2 =>
          .ok (items2,
            [("ItemChanged".toList, dbus.ItemPath collectionName itemId)])

/-- `Service.GetSecrets`: resolve the session once or fail `NoSession`;
each item path that parses, resolves and encrypts contributes an entry,
the rest are skipped. -/
def ServiceGetSecrets (st : SessionsState)
    (stored : List (GoString × List ItemData)) (itemPaths : List GoString)
    (sessionPath : GoString) :
    Except SSErr (List (GoString × Secret)) :=
  match GetSession st sessionPath with
  | none => .error .NoSession
  | some s =>
    .ok (itemPaths.filterMap (fun path =>
      match dbus.ParseItemPath path with
      | none => none
      | some (collection, id) =>
        match stored.lookup collection with
        | none => none
        | some items =>
          match GetItem items id with
          | none => none
          | some it =>
            match sessionEncrypt s it.secret with
            | .error _ => none
            | .ok (params, ct) =>
              some (path,
                { session := sessionPath, parameters := params,
                  value := ct, contentType := it.contentType })))

/-- `Service.CreateCollection`: name from alias, else label, else
`collection`, sanitized; an existing registry entry of that name is
`AlreadyExists`; otherwise register it and return the collection path and
the no-prompt path `/`. -/
def ServiceCreateCollection (registry : List GoString)
    (properties : List (GoString × Variant)) (a : GoString) :
    Except SSErr (List GoString × GoString × GoString) :=
  let label := extractCollectionLabel properties
  let name0 := if a = [] then label else a
  let name1 := if name0 = [] then "collection".toList else name0
  let name := SanitizeName name1
  if registry.contains name then .error .AlreadyExists
  else .ok (name :: registry, dbus.CollectionPath name, "/".toList)

/-- The claim's wording of a valid PKCS#7 tail after CBC decryption: the
last byte `padLen` lies in `[1, 16]` and all `padLen` trailing bytes equal
`padLen`. -/
def specValidPkcs7 (dec : Bytes) : Prop :=
  1 ≤ dec.getLastD 0 ∧ dec.getLastD 0 ≤ 16 ∧
    ∀ x ∈ dec.drop (dec.length - dec.getLastD 0), x = dec.getLastD 0

instance (dec : Bytes) : Decidable (specValidPkcs7 dec) := by
  unfold specValidPkcs7
  infer_instance

/-- The claim's wording of `CreateCollection`'s name choice: the alias if
non-empty, else the label if non-empty, else `collection`, sanitized. -/
def specChosenName (a label : GoString) : GoString :=
  SanitizeName (if a ≠ [] then a
    else if label ≠ [] then label
    else "collection".toList)

/-- The bus-iff-registry invariant of claim C7: a session path is exported
on the bus exactly when a session of that id is in the registry. -/
def sessionInvariant (st : SessionsState) : Prop :=
  ∀ id : GoString,
    (∃ s ∈ st.sessions, s.id = id) ↔ dbus.SessionPath id ∈ st.exported

section SplitLemmas

theorem splitOnceSlash_no_slash (a : GoString) (h : '/' ∉ a) :
    splitOnceSlash a = (a, none) := by
  induction a with
  | nil => rfl
  | cons c rest ih =>
    have hc : c ≠ '/' := fun hh => h (hh ▸ List.mem_cons_self c rest)
    have hrest : '/' ∉ rest := fun hh => h (List.mem_cons_of_mem c hh)
    simp [splitOnceSlash, hc, ih hrest]

theorem splitOnceSlash_append (a b : GoString) (h : '/' ∉ a) :
    splitOnceSlash (a ++ '/' :: b) = (a, some b) := by
  induction a with
  | nil => simp [splitOnceSlash]
  | cons c rest ih =>
    have hc : c ≠ '/' := fun hh => h (hh ▸ List.mem_cons_self c rest)
    have hrest : '/' ∉ rest := fun hh => h (List.mem_cons_of_mem c hh)
    simp [splitOnceSlash, hc, ih hrest]

theorem splitSlash_no_slash (a : GoString) (h : '/' ∉ a) :
    splitSlash a = [a] := by
  induction a with
  | nil => rfl
  | cons c rest ih =>
    have hc : c ≠ '/' := fun hh => h (hh ▸ List.mem_cons_self c rest)
    have hrest : '/' ∉ rest := fun hh => h (List.mem_cons_of_mem c hh)
    simp [splitSlash, hc, ih hrest]

theorem splitSlash_append (a b : GoString) (ha : '/' ∉ a) (hb : '/' ∉ b) :
    splitSlash (a ++ '/' :: b) = [a, b] := by
  induction a with
  | nil => simp [splitSlash, splitSlash_no_slash b hb]
  | cons c rest ih =>
    have hc : c ≠ '/' := fun hh => ha (hh ▸ List.mem_cons_self c rest)
    have hrest : '/' ∉ rest := fun hh => ha (List.mem_cons_of_mem c hh)
    simp [splitSlash, hc, ih hrest]

theorem isPrefixOf_append (p r : GoString) : p.isPrefixOf (p ++ r) = true := by
  rw [List.isPrefixOf_iff_prefix]
  exact List.prefix_append p r

theorem goTrimPref_append (p r : GoString) : goTrimPref (p ++ r) p = r := by
  simp [goTrimPref, isPrefixOf_append, List.drop_left]

theorem parseCollection_lead (r : GoString) :
    dbus.ParseCollectionPath ((dbus.CollectionBasePath ++ ['/']) ++ r) =
      some (splitOnceSlash r).1 := by
  unfold dbus.ParseCollectionPath
  rw [isPrefixOf_append, goTrimPref_append]
  rfl

theorem parseItem_lead (r : GoString) :
    dbus.ParseItemPath ((dbus.CollectionBasePath ++ ['/']) ++ r) =
      (match splitOnceSlash r with
       | (_, none) => none
       | (a, some b) => some (a, b)) := by
  unfold dbus.ParseItemPath
  rw [isPrefixOf_append, goTrimPref_append]
  rfl

theorem isCollection_lead (r : GoString) :
    dbus.IsCollectionPath ((dbus.CollectionBasePath ++ ['/']) ++ r) =
      !r.contains '/' := by
  unfold dbus.IsCollectionPath
  rw [isPrefixOf_append, goTrimPref_append]
  rfl

theorem isItem_lead (r : GoString) :
    dbus.IsItemPath ((dbus.CollectionBasePath ++ ['/']) ++ r) =
      (match splitSlash r with
       | [a, b] => !a.isEmpty && !b.isEmpty
       | _ => false) := by
  unfold dbus.IsItemPath
  rw [isPrefixOf_append, goTrimPref_append]
  rfl

end SplitLemmas

/-- C9: the path codec round-trips. For every collection name `x` with no
`/`, parsing `CollectionPath x` yields `x` back and the result satisfies
`IsCollectionPath`; for non-empty slash-free `c`, `i`, parsing
`ItemPath c i` yields `(c, i)` and the result satisfies `IsItemPath`;
parsing any path lacking the expected base-path lead fails. -/
theorem C9_path_codec_roundtrip :
    (∀ x : GoString, '/' ∉ x →
      dbus.ParseCollectionPath (dbus.CollectionPath x) = some x ∧
      dbus.IsCollectionPath (dbus.CollectionPath x) = true) ∧
    (∀ c i : GoString, '/' ∉ c → '/' ∉ i → c ≠ [] → i ≠ [] →
      dbus.ParseItemPath (dbus.ItemPath c i) = some (c, i) ∧
      dbus.IsItemPath (dbus.ItemPath c i) = true) ∧
    (∀ p : GoString,
      (dbus.CollectionBasePath ++ ['/']).isPrefixOf p = false →
      dbus.ParseCollectionPath p = none ∧ dbus.ParseItemPath p = none) := by
  refine ⟨fun x hx => ?_, fun c i hc hi hcne hine => ?_, fun p hp => ?_⟩
  · have heq : dbus.CollectionPath x = (dbus.CollectionBasePath ++ ['/']) ++ x := by
      rw [dbus.CollectionPath, List.append_assoc]
    rw [heq, parseCollection_lead, isCollection_lead,
      splitOnceSlash_no_slash x hx]
    refine ⟨rfl, ?_⟩
    simpa using hx
  · have heq : dbus.ItemPath c i =
        (dbus.CollectionBasePath ++ ['/']) ++ (c ++ '/' :: i) := by
      rw [dbus.ItemPath, List.append_assoc, List.append_assoc,
        List.singleton_append]
    rw [heq, parseItem_lead, isItem_lead, splitOnceSlash_append c i hc,
      splitSlash_append c i hc hi]
    refine ⟨rfl, ?_⟩
    simp [List.isEmpty_iff, hcne, hine]
  · constructor
    · unfold dbus.ParseCollectionPath
      rw [hp]
      rfl
    · unfold dbus.ParseItemPath
      rw [hp]
      rfl

/-- Witness for C9 at concrete inputs: collection name `login`, item id
`i0a`, and a foreign path `/foo`. -/
theorem C9_path_codec_roundtrip_witness :
    dbus.ParseCollectionPath (dbus.CollectionPath "login".toList) =
      some "login".toList ∧
    dbus.ParseItemPath (dbus.ItemPath "login".toList "i0a".toList) =
      some ("login".toList, "i0a".toList) ∧
    dbus.ParseCollectionPath "/foo".toList = none := by
  refine ⟨(C9_path_codec_roundtrip.1 "login".toList (by decide)).1,
    (C9_path_codec_roundtrip.2.1 "login".toList "i0a".toList
      (by decide) (by decide) (by decide) (by decide)).1,
    (C9_path_codec_roundtrip.2.2 "/foo".toList (by decide)).1⟩


section CryptoLemmas

theorem chunk16_flatten (l : Bytes) : (chunk16 l).flatten = l := by
  by_cases h : l = []
  · subst h; rw [chunk16]; simp
  · rw [chunk16]
    simp only [h, dite_false, List.flatten_cons]
    rw [chunk16_flatten (l.drop 16), List.take_append_drop]
termination_by l.length
decreasing_by
  have : 0 < l.length := List.length_pos.mpr h
  simp only [List.length_drop]
  omega

theorem chunk16_cons (b l : Bytes) (hb : b.length = 16) :
    chunk16 (b ++ l) = b :: chunk16 l := by
  have hne : b ++ l ≠ [] := by
    intro hh
    have : b = [] := (List.append_eq_nil.mp hh).1
    simp [this] at hb
  rw [chunk16]
  simp only [hne, dite_false]
  rw [← hb, List.take_left, List.drop_left]

theorem chunk16_of_blocks (bs : List Bytes) (h : ∀ b ∈ bs, b.length = 16) :
    chunk16 bs.flatten = bs := by
  induction bs with
  | nil => rw [chunk16]; simp
  | cons b bs ih =>
    rw [List.flatten_cons, chunk16_cons b _ (h b (List.mem_cons_self b bs))]
    rw [ih (fun x hx => h x (List.mem_cons_of_mem b hx))]

theorem chunk16_blocks_len (l : Bytes) (h : l.length % 16 = 0) :
    ∀ b ∈ chunk16 l, b.length = 16 := by
  by_cases hl : l = []
  · subst hl; rw [chunk16]; simp
  · have hpos : 0 < l.length := List.length_pos.mpr hl
    have h16 : 16 ≤ l.length := by omega
    rw [chunk16]
    simp only [hl, dite_false]
    intro b hb
    rcases List.mem_cons.mp hb with hb | hb
    · subst hb
      simp only [List.length_take]
      omega
    · have hd : (l.drop 16).length % 16 = 0 := by
        simp only [List.length_drop]
        omega
      exact chunk16_blocks_len (l.drop 16) hd b hb
termination_by l.length
decreasing_by
  have : 0 < l.length := List.length_pos.mpr hl
  simp only [List.length_drop]
  omega

theorem flatten_len_16 (bs : List Bytes) (h : ∀ b ∈ bs, b.length = 16) :
    bs.flatten.length = 16 * bs.length := by
  induction bs with
  | nil => simp
  | cons b bs ih =>
    simp only [List.flatten_cons, List.length_append, List.length_cons,
      h b (List.mem_cons_self b bs),
      ih (fun x hx => h x (List.mem_cons_of_mem b hx))]
    ring

theorem xorBytes_length (a b : Bytes) :
    (xorBytes a b).length = min a.length b.length := by
  simp [xorBytes]

theorem xorBytes_cancel (a b : Bytes) (h : a.length = b.length) :
    xorBytes a (xorBytes a b) = b := by
  induction a generalizing b with
  | nil =>
    cases b with
    | nil => rfl
    | cons y ys => simp at h
  | cons x xs ih =>
    cases b with
    | nil => simp at h
    | cons y ys =>
      have h2 : xs.length = ys.length := by simpa using h
      simp only [xorBytes, List.zipWith_cons_cons] at ih ⊢
      rw [← Nat.xor_assoc, Nat.xor_self, Nat.zero_xor, ih ys h2]

theorem cbcEncBlocks_len (E : Bytes → Bytes)
    (hE : ∀ b : Bytes, b.length = 16 → (E b).length = 16) :
    ∀ (bs : List Bytes) (prev : Bytes), (∀ b ∈ bs, b.length = 16) →
      prev.length = 16 → ∀ c ∈ cbcEncBlocks E prev bs, c.length = 16 := by
  intro bs
  induction bs with
  | nil => intro prev _ _ c hc; simp [cbcEncBlocks] at hc
  | cons b bs ih =>
    intro prev hbs hprev c hc
    have hb : b.length = 16 := hbs b (List.mem_cons_self b bs)
    have hxl : (xorBytes prev b).length = 16 := by
      rw [xorBytes_length, hprev, hb]; simp
    have hcl : (E (xorBytes prev b)).length = 16 := hE _ hxl
    simp only [cbcEncBlocks] at hc
    rcases List.mem_cons.mp hc with hc | hc
    · subst hc; exact hcl
    · exact ih (E (xorBytes prev b))
        (fun x hx => hbs x (List.mem_cons_of_mem b hx)) hcl c hc

theorem cbcDec_cbcEnc (E D : Bytes → Bytes)
    (hED : ∀ b : Bytes, b.length = 16 → D (E b) = b)
    (hE : ∀ b : Bytes, b.length = 16 → (E b).length = 16) :
    ∀ (bs : List Bytes) (prev : Bytes), (∀ b ∈ bs, b.length = 16) →
      prev.length = 16 →
      cbcDecBlocks D prev (cbcEncBlocks E prev bs) = bs := by
  intro bs
  induction bs with
  | nil => intro prev _ _; rfl
  | cons b bs ih =>
    intro prev hbs hprev
    have hb : b.length = 16 := hbs b (List.mem_cons_self b bs)
    have hxl : (xorBytes prev b).length = 16 := by
      rw [xorBytes_length, hprev, hb]; simp
    simp only [cbcEncBlocks, cbcDecBlocks]
    rw [hED _ hxl, xorBytes_cancel prev b (by rw [hprev, hb]),
      ih (E (xorBytes prev b))
        (fun x hx => hbs x (List.mem_cons_of_mem b hx)) (hE _ hxl)]

theorem cbcDecBlocks_count (D : Bytes → Bytes) :
    ∀ (cs : List Bytes) (prev : Bytes),
      (cbcDecBlocks D prev cs).length = cs.length := by
  intro cs
  induction cs with
  | nil => intro prev; rfl
  | cons c cs ih => intro prev; simp [cbcDecBlocks, ih]

theorem cbcDecBlocks_blocklen (D : Bytes → Bytes)
    (hD : ∀ b : Bytes, b.length = 16 → (D b).length = 16) :
    ∀ (cs : List Bytes) (prev : Bytes), (∀ c ∈ cs, c.length = 16) →
      prev.length = 16 → ∀ p ∈ cbcDecBlocks D prev cs, p.length = 16 := by
  intro cs
  induction cs with
  | nil => intro prev _ _ p hp; simp [cbcDecBlocks] at hp
  | cons c cs ih =>
    intro prev hcs hprev p hp
    have hc : c.length = 16 := hcs c (List.mem_cons_self c cs)
    simp only [cbcDecBlocks] at hp
    rcases List.mem_cons.mp hp with hp | hp
    · subst hp
      rw [xorBytes_length, hprev, hD c hc]; simp
    · exact ih c (fun x hx => hcs x (List.mem_cons_of_mem c hx)) hc p hp

theorem getLastD_append_singleton (l : Bytes) (x d : Nat) :
    (l ++ [x]).getLastD d = x := by
  induction l generalizing d with
  | nil => rfl
  | cons y ys ih =>
    rw [List.cons_append, List.getLastD_cons]
    exact ih y

theorem pkcs7Pad_padLen_bounds (P : Bytes) :
    1 ≤ 16 - P.length % 16 ∧ 16 - P.length % 16 ≤ 16 := by
  have : P.length % 16 < 16 := Nat.mod_lt _ (by omega)
  omega

theorem pkcs7Unpad_pad (P : Bytes) : pkcs7Unpad (pkcs7Pad P) = some P := by
  set n := 16 - P.length % 16 with hn
  have hbounds : 1 ≤ n ∧ n ≤ 16 := pkcs7Pad_padLen_bounds P
  have hrepl : List.replicate n n = List.replicate (n - 1) n ++ [n] := by
    have : n = (n - 1) + 1 := by omega
    rw [this]
    rw [List.replicate_succ']
    simp
  have hlast : (pkcs7Pad P).getLastD 0 = n := by
    rw [pkcs7Pad, ← hn, hrepl, ← List.append_assoc]
    exact getLastD_append_singleton _ n 0
  have hlen : (pkcs7Pad P).length = P.length + n := by
    simp [pkcs7Pad, ← hn]
  have hne : (pkcs7Pad P).length ≠ 0 := by omega
  rw [pkcs7Unpad]
  simp only [hne, if_false, hlast]
  have hcond : ¬(n = 0 ∨ n > 16 ∨ n > (pkcs7Pad P).length) := by
    push_neg
    refine ⟨by omega, by omega, by omega⟩
  simp only [hcond, if_false]
  have hsub : (pkcs7Pad P).length - n = P.length := by omega
  have hdropped : (pkcs7Pad P).drop ((pkcs7Pad P).length - n) =
      List.replicate n n := by
    rw [hsub, pkcs7Pad, ← hn]
    exact List.drop_left P (List.replicate n n)
  have htaken : (pkcs7Pad P).take ((pkcs7Pad P).length - n) = P := by
    rw [hsub, pkcs7Pad, ← hn]
    exact List.take_left P (List.replicate n n)
  rw [hdropped, htaken]
  have hall : (List.replicate n n).all (fun x => x == n) = true := by
    simp [List.all_eq_true]
  simp [hall]

end CryptoLemmas

section CryptoTheoremSupport

theorem cbcEncBlocks_count (E : Bytes → Bytes) :
    ∀ (bs : List Bytes) (prev : Bytes),
      (cbcEncBlocks E prev bs).length = bs.length := by
  intro bs
  induction bs with
  | nil => intro prev; rfl
  | cons b bs ih => intro prev; simp [cbcEncBlocks, ih]

theorem pkcs7Unpad_characterization (dec : Bytes) (h16 : 16 ≤ dec.length) :
    (pkcs7Unpad dec = none ↔ ¬ specValidPkcs7 dec) ∧
    (∀ pt, pkcs7Unpad dec = some pt →
      pt = dec.take (dec.length - dec.getLastD 0)) := by
  have hne : ¬ dec.length = 0 := by omega
  set padLen := dec.getLastD 0 with hpl
  rw [pkcs7Unpad]
  simp only [hne, if_false, ← hpl]
  by_cases hbad : padLen = 0 ∨ padLen > 16 ∨ padLen > dec.length
  · simp only [hbad, if_true]
    constructor
    · simp only [true_iff]
      intro hv
      rcases hv with ⟨h1, h2, _⟩
      omega
    · intro pt hpt
      exact absurd hpt (by simp)
  · simp only [hbad, if_false]
    push_neg at hbad
    by_cases hall : (dec.drop (dec.length - padLen)).all
        (fun x => x == padLen) = true
    · simp only [hall, if_true]
      have hv : specValidPkcs7 dec := by
        unfold specValidPkcs7
        rw [← hpl]
        refine ⟨by omega, by omega, ?_⟩
        intro x hx
        exact beq_iff_eq.mp (List.all_eq_true.mp hall x hx)
      refine ⟨iff_of_false (by simp) (fun hnv => hnv hv),
        fun pt hpt => (Option.some.inj hpt).symm⟩
    · simp only [hall, if_false]
      refine ⟨iff_of_true rfl ?_, fun pt hpt => absurd hpt (by simp)⟩
      intro hv
      apply hall
      simp only [List.all_eq_true, beq_iff_eq]
      intro x hx
      have hx2 : x ∈ dec.drop (dec.length - dec.getLastD 0) := by
        rw [← hpl]
        exact hx
      rw [hpl]
      exact hv.2.2 x hx2

end CryptoTheoremSupport

/-- C2: for every DH-AES session (block cipher pair `E`, `D` with `D`
inverting `E` on 16-byte blocks and `E` length-preserving) and every
byte string `P`, `Decrypt` applied to the `(IV, ciphertext)` pair produced
by `Encrypt P` returns exactly `P`; PKCS#7 pad-then-unpad is the identity,
and the pad appended by `Encrypt` is between 1 and 16 bytes. -/
theorem C2_dh_encrypt_decrypt_roundtrip (E D : Bytes → Bytes)
    (hED : ∀ b : Bytes, b.length = 16 → D (E b) = b)
    (hE : ∀ b : Bytes, b.length = 16 → (E b).length = 16)
    (iv : Bytes) (hiv : iv.length = 16) (P : Bytes) :
    DHSession.Decrypt D
      (DHSession.Encrypt E iv P).1 (DHSession.Encrypt E iv P).2 = some P ∧
    pkcs7Unpad (pkcs7Pad P) = some P ∧
    1 ≤ (pkcs7Pad P).length - P.length ∧
    (pkcs7Pad P).length - P.length ≤ 16 := by
  have hpadlen : (pkcs7Pad P).length = P.length + (16 - P.length % 16) := by
    simp [pkcs7Pad]
  have hmodlt : P.length % 16 < 16 := Nat.mod_lt _ (by omega)
  have hmod : (pkcs7Pad P).length % 16 = 0 := by
    rw [hpadlen]
    omega
  have hblocks := chunk16_blocks_len (pkcs7Pad P) hmod
  have hencblocks : ∀ c ∈ cbcEncBlocks E iv (chunk16 (pkcs7Pad P)),
      c.length = 16 :=
    cbcEncBlocks_len E hE _ iv hblocks hiv
  have hpad16 : (pkcs7Pad P).length = 16 * (chunk16 (pkcs7Pad P)).length := by
    conv_lhs => rw [← chunk16_flatten (pkcs7Pad P)]
    exact flatten_len_16 _ hblocks
  have hctlen :
      (cbcEncBlocks E iv (chunk16 (pkcs7Pad P))).flatten.length =
        (pkcs7Pad P).length := by
    rw [flatten_len_16 _ hencblocks, cbcEncBlocks_count, ← hpad16]
  have hctmod :
      (cbcEncBlocks E iv (chunk16 (pkcs7Pad P))).flatten.length % 16 = 0 := by
    rw [hctlen]; exact hmod
  have hctpos :
      ¬ (cbcEncBlocks E iv (chunk16 (pkcs7Pad P))).flatten.length = 0 := by
    rw [hctlen, hpadlen]
    omega
  refine ⟨?_, pkcs7Unpad_pad P, by omega, by omega⟩
  rw [DHSession.Encrypt, DHSession.Decrypt]
  simp only [hiv, hctmod, hctpos, ne_eq, not_true_eq_false, if_false,
    or_self, not_false_eq_true]
  rw [chunk16_of_blocks _ hencblocks,
    cbcDec_cbcEnc E D hED hE _ iv hblocks hiv, chunk16_flatten]
  exact pkcs7Unpad_pad P

/-- Witness for C2 with the identity block cipher, a zero IV, and the
plaintext `[1, 2, 3]`. -/
theorem C2_dh_encrypt_decrypt_roundtrip_witness :
    (List.replicate 16 0 : Bytes).length = 16 ∧
    DHSession.Decrypt (fun b => b)
      (DHSession.Encrypt (fun b => b) (List.replicate 16 0) [1, 2, 3]).1
      (DHSession.Encrypt (fun b => b) (List.replicate 16 0) [1, 2, 3]).2 =
      some [1, 2, 3] :=
  ⟨by simp,
    (C2_dh_encrypt_decrypt_roundtrip (fun b => b) (fun b => b)
      (fun _ _ => rfl) (fun _ h => h) (List.replicate 16 0) (by simp)
      [1, 2, 3]).1⟩

/-- C5: DH-AES `Decrypt` (block decryption function `D`, assumed
length-preserving on 16-byte blocks as AES is) fails exactly when the IV
is not 16 bytes, or the ciphertext is empty or of length not a multiple
of 16, or the CBC-decrypted bytes do not end in valid PKCS#7 padding;
otherwise it returns the decrypted bytes with the padding stripped. -/
theorem C5_dh_decrypt_error_conditions (D : Bytes → Bytes)
    (hD : ∀ b : Bytes, b.length = 16 → (D b).length = 16)
    (params ct : Bytes) :
    (DHSession.Decrypt D params ct = none ↔
      params.length ≠ 16 ∨ ct = [] ∨ ct.length % 16 ≠ 0 ∨
        ¬ specValidPkcs7 ((cbcDecBlocks D params (chunk16 ct)).flatten)) ∧
    (∀ pt, DHSession.Decrypt D params ct = some pt →
      pt = ((cbcDecBlocks D params (chunk16 ct)).flatten).take
        (((cbcDecBlocks D params (chunk16 ct)).flatten).length -
          ((cbcDecBlocks D params (chunk16 ct)).flatten).getLastD 0)) := by
  by_cases hP : params.length = 16
  · by_cases hctz : ct.length = 0
    · have hctnil : ct = [] := List.length_eq_zero.mp hctz
      rw [DHSession.Decrypt]
      simp [hP, hctnil]
    · by_cases hctm : ct.length % 16 = 0
      · have hdec16 : ∀ p ∈ cbcDecBlocks D params (chunk16 ct),
            p.length = 16 :=
          cbcDecBlocks_blocklen D hD _ params (chunk16_blocks_len ct hctm) hP
        have hcount16 : ct.length = 16 * (chunk16 ct).length := by
          conv_lhs => rw [← chunk16_flatten ct]
          exact flatten_len_16 _ (chunk16_blocks_len ct hctm)
        have hdeclen :
            (cbcDecBlocks D params (chunk16 ct)).flatten.length =
              ct.length := by
          rw [flatten_len_16 _ hdec16, cbcDecBlocks_count, ← hcount16]
        have h16le : 16 ≤ (cbcDecBlocks D params (chunk16 ct)).flatten.length := by
          rw [hdeclen]
          omega
        have hchar := pkcs7Unpad_characterization _ h16le
        have hdef : DHSession.Decrypt D params ct =
            pkcs7Unpad ((cbcDecBlocks D params (chunk16 ct)).flatten) := by
          rw [DHSession.Decrypt]
          simp [hP, hctz, hctm]
        rw [hdef]
        constructor
        · rw [hchar.1]
          have hne : ct ≠ [] := fun hh => hctz (by simp [hh])
          simp [hP, hne, hctm]
        · exact hchar.2
      · rw [DHSession.Decrypt]
        simp [hP, hctm]
  · rw [DHSession.Decrypt]
    simp [hP]

/-- Witness for C5 with the identity block function, a zero IV and the
ciphertext `replicate 16 3` (which CBC-decrypts to itself and carries a
valid 3-byte pad). -/
theorem C5_dh_decrypt_error_conditions_witness :
    (DHSession.Decrypt (fun b => b) (List.replicate 16 0)
        (List.replicate 16 3) = none ↔
      (List.replicate 16 0 : Bytes).length ≠ 16 ∨
        (List.replicate 16 3 : Bytes) = [] ∨
        (List.replicate 16 3 : Bytes).length % 16 ≠ 0 ∨
        ¬ specValidPkcs7 ((cbcDecBlocks (fun b => b) (List.replicate 16 0)
          (chunk16 (List.replicate 16 3))).flatten)) :=
  (C5_dh_decrypt_error_conditions (fun b => b) (fun _ h => h)
    (List.replicate 16 0) (List.replicate 16 3)).1

/-- C4 as stated is false on the code: `matchesAttributes` reads the Go
map with the zero value `""` for a missing key, so a query pair with an
empty-string value matches an item that lacks the key entirely. Concrete
counterexample: the query `{a: ""}` matches an item with no attributes at
all, although no `(a, "")` pair is present in the item's attributes. -/
theorem C4_subset_match_counterexample :
    matchesAttributes
      { id := ['x'], label := [], secret := [], contentType := [],
        attributes := [], created := 0, modified := 0 }
      [(['a'], [])] = true ∧
    ¬ (∀ kv ∈ [((['a'] : GoString), ([] : GoString))],
        List.lookup kv.1
          ({ id := ['x'], label := [], secret := [], contentType := [],
             attributes := [], created := 0, modified := 0 } :
            ItemData).attributes = some kv.2) := by
  constructor
  · decide
  · intro h
    have := h (['a'], []) (by decide)
    simp [List.lookup] at this

/-- C4 amended: an item matches a query exactly when every queried pair
`(k, v)` either is present in the item's attributes with `k` bound to `v`,
or `k` is absent from the item's attributes and `v` is the empty string
(the Go zero value a missing key reads as); the empty query matches every
item. -/
theorem C4_subset_match_amended (item : ItemData)
    (q : List (GoString × GoString)) :
    (matchesAttributes item q = true ↔
      ∀ kv ∈ q, item.attributes.lookup kv.1 = some kv.2 ∨
        (item.attributes.lookup kv.1 = none ∧ kv.2 = [])) ∧
    matchesAttributes item [] = true := by
  constructor
  · rw [matchesAttributes, List.all_eq_true]
    constructor
    · intro h kv hkv
      have hb := h kv hkv
      rw [goMapGet] at hb
      cases hl : item.attributes.lookup kv.1 with
      | none =>
        right
        refine ⟨rfl, ?_⟩
        rw [hl] at hb
        simpa using (beq_iff_eq.mp hb).symm
      | some w =>
        left
        rw [hl] at hb
        simp only [Option.getD_some] at hb
        rw [beq_iff_eq.mp hb]
    · intro h kv hkv
      rw [goMapGet]
      rcases h kv hkv with hl | ⟨hl, hv⟩
      · rw [hl]
        simp
      · rw [hl, hv]
        simp
  · rfl

/-- C3 as stated is false on the code: when no alias record exists at all,
`GetAlias` special-cases the alias `default` and reports the collection
name `default` instead of an error, so `ReadAlias("default")` returns the
canonical path of the `default` collection, not `/`. -/
theorem C3_read_alias_counterexample :
    ReadAlias none "default".toList =
      dbus.CollectionPath "default".toList ∧
    ReadAlias none "default".toList ≠ "/".toList := by
  constructor
  · rfl
  · decide

/-- C3 amended: `ReadAlias(name)` returns the canonical collection path
when the store record binds the alias to a non-empty target; when the
alias is unknown (record absent, entry absent, or entry empty) it returns
`/` for every name other than `default`, while for `default` it falls back
to the collection name `default` and returns that collection's canonical
path. -/
theorem C3_read_alias_amended
    (rec : Option (List (GoString × GoString))) (name : GoString) :
    (∀ v, rec.bind (fun sec => sec.lookup name) = some v → v ≠ [] →
      ReadAlias rec name = dbus.CollectionPath v) ∧
    ((rec.bind (fun sec => sec.lookup name) = none ∨
        rec.bind (fun sec => sec.lookup name) = some []) →
      name ≠ "default".toList →
      ReadAlias rec name = "/".toList) ∧
    ((rec.bind (fun sec => sec.lookup name) = none ∨
        rec.bind (fun sec => sec.lookup name) = some []) →
      name = "default".toList →
      ReadAlias rec name = dbus.CollectionPath "default".toList) := by
  refine ⟨fun v hv hvne => ?_, fun hu hnd => ?_, fun hu hd => ?_⟩
  · cases rec with
    | none => simp at hv
    | some sec =>
      simp only [Option.some_bind] at hv
      rw [ReadAlias, GetAlias, hv]
      simp [hvne]
  · cases rec with
    | none =>
      rw [ReadAlias, GetAlias, if_neg hnd]
    | some sec =>
      simp only [Option.some_bind] at hu
      rcases hu with hu | hu
      · rw [ReadAlias, GetAlias, hu, if_neg hnd]
      · rw [ReadAlias, GetAlias, hu]
        have hnd2 : name ≠ ['d','e','f','a','u','l','t'] := by simpa using hnd
        simp [hnd2]
  · cases rec with
    | none =>
      rw [ReadAlias, GetAlias, if_pos hd]
    | some sec =>
      simp only [Option.some_bind] at hu
      rcases hu with hu | hu
      · rw [ReadAlias, GetAlias, hu, if_pos hd]
      · rw [ReadAlias, GetAlias, hu]
        simp [hd]

/-- Witness for the amended C3: a record binding `work ↦ jobs` resolves,
and the unknown alias `missing` yields `/`. -/
theorem C3_read_alias_amended_witness :
    ReadAlias (some [("work".toList, "jobs".toList)]) "work".toList =
      dbus.CollectionPath "jobs".toList ∧
    ReadAlias (some [("work".toList, "jobs".toList)]) "missing".toList =
      "/".toList :=
  ⟨(C3_read_alias_amended (some [("work".toList, "jobs".toList)])
      "work".toList).1 "jobs".toList (by decide) (by decide),
   (C3_read_alias_amended (some [("work".toList, "jobs".toList)])
      "missing".toList).2.1 (Or.inl (by decide)) (by decide)⟩

/-- C8: `CreateCollection` chooses the name as the alias if non-empty,
else the `Label` property if non-empty, else `collection`, then
sanitizes; a registry clash fails `AlreadyExists`, otherwise it succeeds
returning `(collection_path, "/")`; empty properties with an empty alias
yield the name `collection`. -/
theorem C8_create_collection (registry : List GoString)
    (properties : List (GoString × Variant)) (a : GoString) :
    (registry.contains
        (specChosenName a (extractCollectionLabel properties)) = true →
      ServiceCreateCollection registry properties a =
        .error .AlreadyExists) ∧
    (registry.contains
        (specChosenName a (extractCollectionLabel properties)) = false →
      ServiceCreateCollection registry properties a =
        .ok (specChosenName a (extractCollectionLabel properties) :: registry,
          dbus.CollectionPath
            (specChosenName a (extractCollectionLabel properties)),
          "/".toList)) ∧
    (properties = [] → a = [] →
      specChosenName a (extractCollectionLabel properties) =
        "collection".toList) := by
  have hname :
      SanitizeName
        (if (if a = [] then extractCollectionLabel properties else a) = []
         then "collection".toList
         else (if a = [] then extractCollectionLabel properties else a)) =
      specChosenName a (extractCollectionLabel properties) := by
    rw [specChosenName]
    by_cases ha : a = [] <;>
      by_cases hl : extractCollectionLabel properties = [] <;>
      simp [ha, hl]
  refine ⟨fun hc => ?_, fun hc => ?_, fun hp ha => ?_⟩
  · simp only [ServiceCreateCollection, hname, hc]
    rfl
  · simp only [ServiceCreateCollection, hname, hc]
    rfl
  · subst hp
    subst ha
    rfl

/-- Witness for C8: starting from an empty registry, an empty properties
map with an empty alias succeeds with the sanitized name `collection`;
with that name already registered, the call fails `AlreadyExists`. -/
theorem C8_create_collection_witness :
    ServiceCreateCollection [] [] [] =
      .ok ([specChosenName [] (extractCollectionLabel [])],
        dbus.CollectionPath (specChosenName [] (extractCollectionLabel [])),
        "/".toList) ∧
    ServiceCreateCollection ["collection".toList] [] [] =
      .error .AlreadyExists :=
  ⟨(C8_create_collection [] [] []).2.1 (by decide),
   (C8_create_collection ["collection".toList] [] []).1 (by decide)⟩

/-- C10 (implicit): the store's `CreateItem` is total — in particular it
never fails because the target collection is absent. When the collection
is unknown it first writes the collection's `_meta` record with the
collection name as label; it always inserts the item record, defaulting
the content-type to `text/plain` when empty and the creation time to the
insert time when unset; afterwards the collection exists. -/
theorem C10_store_create_item_totality (g : GStore) (collection : GoString)
    (item : ItemData) (freshId : GoString) (now : Nat) :
    ((storeCreateItem g collection item freshId now).1 =
      (if item.id = [] then freshId else item.id)) ∧
    (collectionKnown g collection = false →
      ((storeCreateItem g collection item freshId now).2).metas.lookup
        (SanitizeName collection) = some collection) ∧
    (((storeCreateItem g collection item freshId now).2).entries.lookup
        (collection, if item.id = [] then freshId else item.id) =
      some (newItemWrite item freshId now)) ∧
    (item.contentType = [] →
      (newItemWrite item freshId now).contentType = "text/plain".toList) ∧
    (item.created = 0 → (newItemWrite item freshId now).created = now) ∧
    collectionKnown ((storeCreateItem g collection item freshId now).2)
      collection = true := by
  refine ⟨?_, fun habs => ?_, ?_, fun hct => ?_, fun hcr => ?_, ?_⟩
  · simp [storeCreateItem]
  · simp only [storeCreateItem, habs, if_false, Bool.false_eq_true,
      storeCreateCollection]
    simp [List.lookup]
  · simp [storeCreateItem, List.lookup]
  · simp [newItemWrite, hct]
  · simp [newItemWrite, hcr]
  · have h1 : ((storeCreateItem g collection item freshId now).2).entries =
        ((collection, if item.id = [] then freshId else item.id),
          newItemWrite item freshId now) ::
          (if collectionKnown g collection then g
           else storeCreateCollection g collection collection).entries := by
      simp [storeCreateItem]
    unfold collectionKnown
    rw [h1]
    simp only [List.any_cons, beq_self_eq_true, Bool.true_or, Bool.or_true]

/-- Witness for C10: inserting into an empty store, where no collection
exists, creates the collection `c` with label `c` and stores the item
with defaulted content-type and creation time. -/
theorem C10_store_create_item_totality_witness :
    collectionKnown { metas := [], entries := [] } ['c'] = false ∧
    ((storeCreateItem { metas := [], entries := [] } ['c']
        { id := [], label := [], secret := [1], contentType := [],
          attributes := [], created := 0, modified := 0 }
        ['i'] 7).2).metas.lookup (SanitizeName ['c']) = some ['c'] ∧
    (newItemWrite
        { id := [], label := [], secret := [1], contentType := [],
          attributes := [], created := 0, modified := 0 } ['i'] 7).created =
      7 :=
  ⟨by decide,
   (C10_store_create_item_totality { metas := [], entries := [] } ['c']
      { id := [], label := [], secret := [1], contentType := [],
        attributes := [], created := 0, modified := 0 } ['i'] 7).2.1
     (by decide),
   (C10_store_create_item_totality { metas := [], entries := [] } ['c']
      { id := [], label := [], secret := [1], contentType := [],
        attributes := [], created := 0, modified := 0 } ['i'] 7).2.2.2.2.1
     rfl⟩

section ItemUpdateLemmas

theorem getItem_map_upd (items : List ItemData) (id : GoString)
    (w : ItemData) (hw : w.id = id) (stored : ItemData)
    (h : GetItem items id = some stored) :
    GetItem (items.map (fun it => if it.id == id then w else it)) id =
      some w := by
  induction items with
  | nil => simp [GetItem] at h
  | cons x xs ih =>
    by_cases hx : (x.id == id) = true
    · simp only [List.map_cons, hx, if_true, GetItem]
      rw [List.find?_cons_of_pos (p := fun it : ItemData => it.id == id)]
      rw [hw]
      exact beq_self_eq_true id
    · have h2 : GetItem xs id = some stored := by
        rw [GetItem,
          List.find?_cons_of_neg (p := fun it : ItemData => it.id == id) _ hx] at h
        exact h
      simp only [List.map_cons, hx, if_false, GetItem, Bool.false_eq_true]
      rw [List.find?_cons_of_neg (p := fun it : ItemData => it.id == id) _ hx]
      exact ih h2

theorem updateItem_found (items : List ItemData) (id : GoString)
    (item : ItemData) (now : Nat) (stored : ItemData)
    (h : GetItem items id = some stored) :
    UpdateItem items id item now =
      some (items.map (fun it =>
        if it.id == id then updItemWrite stored item id now else it)) := by
  rw [UpdateItem, h]

end ItemUpdateLemmas

/-- C6: `Item.SetSecret` with a resolvable session overwrites the stored
secret bytes, emits exactly one `ItemChanged`, preserves the item's
creation time, sets `Modified` to the update time, and overwrites the
content-type except that an empty supplied content-type keeps the
existing one; attributes, label and id are unchanged. -/
theorem C6_item_set_secret (st : SessionsState) (items : List ItemData)
    (collectionName itemId : GoString) (secret : Secret) (now : Nat)
    (s : SessionObj) (pt : Bytes) (stored : ItemData)
    (hs : GetSession st secret.session = some s)
    (hd : sessionDecrypt s secret.parameters secret.value = .ok pt)
    (hg : GetItem items itemId = some stored) :
    ∃ items2,
      ItemSetSecret st items collectionName itemId secret now =
        .ok (items2,
          [("ItemChanged".toList, dbus.ItemPath collectionName itemId)]) ∧
      GetItem items2 itemId = some
        { id := itemId
          label := stored.label
          secret := pt
          contentType :=
            if secret.contentType = [] then stored.contentType
            else secret.contentType
          attributes := stored.attributes
          created := stored.created
          modified := now } := by
  have hwr : updItemWrite stored
      { stored with secret := pt, contentType := secret.contentType }
      itemId now =
      { id := itemId
        label := stored.label
        secret := pt
        contentType :=
          if secret.contentType = [] then stored.contentType
          else secret.contentType
        attributes := stored.attributes
        created := stored.created
        modified := now } := rfl
  refine ⟨items.map (fun it =>
    if it.id == itemId then
      updItemWrite stored
        { stored with secret := pt, contentType := secret.contentType }
        itemId now
    else it), ?_, ?_⟩
  · rw [ItemSetSecret, hs]
    simp only [hd, hg]
    rw [updateItem_found items itemId _ now stored hg]
  · rw [getItem_map_upd items itemId _ (by rw [hwr]) stored hg, hwr]

/-- Witness for C6: a plain session updates a concrete stored item,
keeping its creation time and (for an empty supplied content-type) its
content-type. -/
theorem C6_item_set_secret_witness :
    ∃ items2,
      ItemSetSecret
        (createSession { sessions := [], exported := [] }
          CryptoSession.plain "s1".toList).1
        [{ id := "i1".toList, label := ['L'], secret := [1],
           contentType := "text/plain".toList,
           attributes := [(['k'], ['v'])], created := 5, modified := 5 }]
        ['c'] "i1".toList
        { session := dbus.SessionPath "s1".toList, parameters := [],
          value := [9], contentType := [] } 8 =
      .ok (items2, [("ItemChanged".toList, dbus.ItemPath ['c'] "i1".toList)]) ∧
      GetItem items2 "i1".toList = some
        { id := "i1".toList
          label := ['L']
          secret := [9]
          contentType :=
            if ([] : GoString) = [] then "text/plain".toList else []
          attributes := [(['k'], ['v'])]
          created := 5
          modified := 8 } :=
  C6_item_set_secret
    (createSession { sessions := [], exported := [] }
      CryptoSession.plain "s1".toList).1
    [{ id := "i1".toList, label := ['L'], secret := [1],
       contentType := "text/plain".toList,
       attributes := [(['k'], ['v'])], created := 5, modified := 5 }]
    ['c'] "i1".toList
    { session := dbus.SessionPath "s1".toList, parameters := [],
      value := [9], contentType := [] } 8
    { id := "s1".toList, crypto := CryptoSession.plain, closed := false }
    [9]
    { id := "i1".toList, label := ['L'], secret := [1],
      contentType := "text/plain".toList,
      attributes := [(['k'], ['v'])], created := 5, modified := 5 }
    (by rfl) (by rfl) (by rfl)

section SessionLemmas

theorem parseSession_roundtrip (id : GoString) :
    dbus.ParseSessionPath (dbus.SessionPath id) = some id := by
  have heq : dbus.SessionPath id = (dbus.SessionBasePath ++ ['/']) ++ id := by
    rw [dbus.SessionPath, List.append_assoc]
  rw [heq]
  unfold dbus.ParseSessionPath
  rw [isPrefixOf_append, goTrimPref_append]
  rfl

theorem sessionPath_inj (a b : GoString)
    (h : dbus.SessionPath a = dbus.SessionPath b) : a = b := by
  rw [dbus.SessionPath, dbus.SessionPath] at h
  exact List.append_cancel_left h

theorem getSession_after_close (st : SessionsState) (s : SessionObj)
    (hopen : s.closed = false) :
    GetSession (sessionClose st s).1 (dbus.SessionPath s.id) = none := by
  rw [sessionClose]
  simp only [hopen, Bool.false_eq_true, if_false]
  rw [GetSession, parseSession_roundtrip]
  apply List.find?_eq_none.mpr
  intro t ht
  have hm := List.mem_filter.mp ht
  simpa using hm.2

end SessionLemmas

/-- C7: after a session is closed, any operation that dereferences it
fails `NoSession` — the registry lookup fails, so `CreateItem`,
`Item.GetSecret`, `Item.SetSecret` and `GetSecrets` all report
`NoSession`, and direct `Encrypt`/`Decrypt` on the closed object fail the
same way; and a session path is exported on the bus iff an entry exists
in the registry — the invariant holds initially and is preserved by
session creation, close, and bulk close. -/
theorem C7_session_close_semantics (st : SessionsState) (s : SessionObj)
    (hopen : s.closed = false) :
    (GetSession (sessionClose st s).1 (dbus.SessionPath s.id) = none) ∧
    ((sessionClose st s).2.closed = true) ∧
    (∀ pt, sessionEncrypt (sessionClose st s).2 pt = .error .NoSession) ∧
    (∀ p c, sessionDecrypt (sessionClose st s).2 p c =
      .error .NoSession) ∧
    (∀ items collectionName properties secret replace freshId now,
      secret.session = dbus.SessionPath s.id →
      CollectionCreateItem (sessionClose st s).1 items collectionName
        properties secret replace freshId now = .error .NoSession) ∧
    (∀ items itemId,
      ItemGetSecret (sessionClose st s).1 items itemId
        (dbus.SessionPath s.id) = .error .NoSession) ∧
    (∀ items collectionName itemId secret now,
      secret.session = dbus.SessionPath s.id →
      ItemSetSecret (sessionClose st s).1 items collectionName itemId
        secret now = .error .NoSession) ∧
    (∀ stored itemPaths,
      ServiceGetSecrets (sessionClose st s).1 stored itemPaths
        (dbus.SessionPath s.id) = .error .NoSession) ∧
    sessionInvariant { sessions := [], exported := [] } ∧
    (∀ c id, sessionInvariant st →
      sessionInvariant (createSession st c id).1) ∧
    (sessionInvariant st → sessionInvariant (sessionClose st s).1) ∧
    (sessionInvariant st → sessionInvariant (closeAllSessions st)) := by
  have hget := getSession_after_close st s hopen
  have hsc : (sessionClose st s).2 = { s with closed := true } := by
    rw [sessionClose]
    simp [hopen]
  refine ⟨hget, by rw [hsc], ?_, ?_, ?_, ?_, ?_, ?_, ?_, ?_, ?_, ?_⟩
  · intro pt
    rw [hsc, sessionEncrypt]
    rfl
  · intro p c
    rw [hsc, sessionDecrypt]
    rfl
  · intro items collectionName properties secret replace freshId now hsec
    rw [CollectionCreateItem, hsec, hget]
  · intro items itemId
    rw [ItemGetSecret, hget]
  · intro items collectionName itemId secret now hsec
    rw [ItemSetSecret, hsec, hget]
  · intro stored itemPaths
    rw [ServiceGetSecrets, hget]
  · intro j
    simp
  · intro c id hinv j
    rw [createSession]
    constructor
    · rintro ⟨t, ht, htid⟩
      rcases List.mem_cons.mp ht with h | h
      · subst h
        simp only at htid
        subst htid
        exact List.mem_cons_self _ _
      · exact List.mem_cons_of_mem _ ((hinv j).1 ⟨t, h, htid⟩)
    · intro hmem
      rcases List.mem_cons.mp hmem with h | h
      · have hj : j = id := sessionPath_inj j id h
        subst hj
        exact ⟨{ id := j, crypto := c, closed := false },
          List.mem_cons_self _ _, rfl⟩
      · obtain ⟨t, ht, htid⟩ := (hinv j).2 h
        exact ⟨t, List.mem_cons_of_mem _ ht, htid⟩
  · intro hinv j
    rw [sessionClose]
    simp only [hopen, Bool.false_eq_true, if_false]
    constructor
    · rintro ⟨t, ht, htid⟩
      have hm := List.mem_filter.mp ht
      have hne : t.id ≠ s.id := by simpa using hm.2
      apply List.mem_filter.mpr
      refine ⟨(hinv j).1 ⟨t, hm.1, htid⟩, ?_⟩
      subst htid
      simp only [Bool.not_eq_eq_eq_not, Bool.not_true, beq_eq_false_iff_ne,
        ne_eq]
      intro hpath
      exact hne (sessionPath_inj t.id s.id hpath)
    · intro hmem
      have hm := List.mem_filter.mp hmem
      have hne : j ≠ s.id := by
        intro hj
        subst hj
        simpa using hm.2
      obtain ⟨t, ht, htid⟩ := (hinv j).2 hm.1
      refine ⟨t, List.mem_filter.mpr ⟨ht, ?_⟩, htid⟩
      subst htid
      simpa using hne
  · intro hinv j
    rw [closeAllSessions]
    simp only [List.not_mem_nil]
    constructor
    · rintro ⟨t, ht, _⟩
      exact ht.elim
    · intro hmem
      have hm := List.mem_filter.mp hmem
      obtain ⟨t, ht, htid⟩ := (hinv j).2 hm.1
      have : st.sessions.any
          (fun u => dbus.SessionPath u.id == dbus.SessionPath j) = true := by
        apply List.any_eq_true.mpr
        exact ⟨t, ht, by rw [htid]; exact beq_self_eq_true _⟩
      rw [this] at hm
      simp at hm

/-- Witness for C7 at a concrete open session and the empty state. -/
theorem C7_session_close_semantics_witness :
    GetSession
      (sessionClose { sessions := [], exported := [] }
        { id := "s1".toList, crypto := CryptoSession.plain,
          closed := false }).1
      (dbus.SessionPath "s1".toList) = none ∧
    sessionInvariant
      (closeAllSessions { sessions := [], exported := [] }) := by
  have h := C7_session_close_semantics { sessions := [], exported := [] }
    { id := "s1".toList, crypto := CryptoSession.plain, closed := false }
    rfl
  refine ⟨h.1, ?_⟩
  apply h.2.2.2.2.2.2.2.2.2.2.2
  intro j
  simp

section AttributeLemmas

theorem lookup_self_of_nodup (A : List (GoString × GoString))
    (h : (A.map Prod.fst).Nodup) :
    ∀ kv ∈ A, A.lookup kv.1 = some kv.2 := by
  induction A with
  | nil => intro kv hkv; simp at hkv
  | cons p rest ih =>
    have h2 : (p.1 :: rest.map Prod.fst).Nodup := by simpa using h
    obtain ⟨hp, hrest⟩ := List.nodup_cons.mp h2
    intro kv hkv
    rcases List.mem_cons.mp hkv with hkv1 | hkv2
    · subst hkv1
      simp [List.lookup]
    · have hne : p.1 ≠ kv.1 := by
        intro he
        apply hp
        rw [he]
        exact List.mem_map_of_mem Prod.fst hkv2
      have hb : (kv.1 == p.1) = false :=
        beq_eq_false_iff_ne.mpr (fun he => hne he.symm)
      obtain ⟨k, v⟩ := p
      simp only [List.lookup, hb]
      exact ih hrest kv hkv2

theorem attributesMatch_self (A : List (GoString × GoString))
    (h : (A.map Prod.fst).Nodup) : attributesMatch A A = true := by
  rw [attributesMatch]
  simp only [beq_self_eq_true, Bool.true_and]
  rw [List.all_eq_true]
  intro kv hkv
  rw [lookup_self_of_nodup A h kv hkv]
  exact beq_self_eq_true _

theorem matchesAttributes_of_attrEq (it : ItemData)
    (A : List (GoString × GoString)) (hattr : it.attributes = A)
    (h : (A.map Prod.fst).Nodup) : matchesAttributes it A = true := by
  rw [matchesAttributes, List.all_eq_true]
  intro kv hkv
  rw [goMapGet, hattr, lookup_self_of_nodup A h kv hkv]
  simp

theorem find?_append_none {α : Type} (p : α → Bool) (l1 l2 : List α)
    (h : l1.find? p = none) : (l1 ++ l2).find? p = l2.find? p := by
  induction l1 with
  | nil => rfl
  | cons x xs ih =>
    have hx : ¬ p x = true := fun hc =>
      (List.find?_eq_none.mp h x (List.mem_cons_self x xs)) hc
    have hxs : xs.find? p = none := by
      apply List.find?_eq_none.mpr
      intro y hy
      exact List.find?_eq_none.mp h y (List.mem_cons_of_mem x hy)
    rw [List.cons_append, List.find?_cons_of_neg _ hx, ih hxs]

end AttributeLemmas

/-- C1: on a collection none of whose items carries an attribute map
byte-equal to the non-empty map `A`, two successive `CreateItem` calls
with identical attributes `A` and `replace = false` (both with resolvable
sessions and decryptable secrets) behave as: the first creates one item
with attributes `A` and the first plaintext; the second returns the same
item path, changes nothing and emits no signal; afterwards exactly one
item of the collection has attribute map byte-equal to `A`, and its
secret is the first call's plaintext. -/
theorem C1_create_item_duplicate_prevention
    (st : SessionsState) (items : List ItemData)
    (collectionName : GoString) (properties : List (GoString × Variant))
    (secret1 secret2 : Secret) (freshId1 freshId2 : GoString)
    (now1 now2 : Nat) (s1 s2 : SessionObj) (pt1 pt2 : Bytes)
    (A : List (GoString × GoString))
    (hs1 : GetSession st secret1.session = some s1)
    (hd1 : sessionDecrypt s1 secret1.parameters secret1.value = .ok pt1)
    (hs2 : GetSession st secret2.session = some s2)
    (hd2 : sessionDecrypt s2 secret2.parameters secret2.value = .ok pt2)
    (hA : extractItemAttributes properties = A)
    (hAne : A ≠ [])
    (hnodup : (A.map Prod.fst).Nodup)
    (hclean : ∀ it ∈ items, attributesMatch it.attributes A = false) :
    ∃ w : ItemData,
      w.attributes = A ∧ w.secret = pt1 ∧ w.id = freshId1 ∧
      CollectionCreateItem st items collectionName properties secret1
          false freshId1 now1 =
        .ok (items ++ [w], dbus.ItemPath collectionName freshId1,
          [("ItemCreated".toList, dbus.ItemPath collectionName freshId1)]) ∧
      CollectionCreateItem st (items ++ [w]) collectionName properties
          secret2 false freshId2 now2 =
        .ok (items ++ [w], dbus.ItemPath collectionName freshId1, []) ∧
      (items ++ [w]).countP
        (fun it => attributesMatch it.attributes A) = 1 ∧
      (∀ it ∈ items ++ [w],
        attributesMatch it.attributes A = true → it.secret = pt1) := by
  have hlen : 0 < A.length := List.length_pos.mpr hAne
  set w := newItemWrite
    { id := freshId1, label := extractItemLabel properties, secret := pt1,
      contentType := secret1.contentType, attributes := A,
      created := 0, modified := 0 } freshId1 now1 with hw
  have hw_attrs : w.attributes = A := by rw [hw, newItemWrite]
  have hw_secret : w.secret = pt1 := by rw [hw, newItemWrite]
  have hw_id : w.id = freshId1 := by
    rw [hw, newItemWrite]
    simp
  have hfind1 : (SearchItems items A).find?
      (fun it => attributesMatch it.attributes A) = none := by
    apply List.find?_eq_none.mpr
    intro x hx
    have hxin : x ∈ items := (List.mem_filter.mp hx).1
    simp [hclean x hxin]
  have hqw : attributesMatch w.attributes A = true := by
    rw [hw_attrs]
    exact attributesMatch_self A hnodup
  have hpw : matchesAttributes w A = true :=
    matchesAttributes_of_attrEq w A hw_attrs hnodup
  refine ⟨w, hw_attrs, hw_secret, hw_id, ?_, ?_, ?_, ?_⟩
  · rw [CollectionCreateItem, hs1]
    simp only [hd1, hA]
    rw [if_pos hlen, hfind1]
  · rw [CollectionCreateItem, hs2]
    simp only [hd2, hA]
    rw [if_pos hlen]
    have hsearch : SearchItems (items ++ [w]) A =
        SearchItems items A ++ [w] := by
      rw [SearchItems, SearchItems, List.filter_append]
      congr 1
      simp [List.filter, hpw]
    rw [hsearch, find?_append_none _ _ _ hfind1,
      List.find?_cons_of_pos
        (p := fun it : ItemData => attributesMatch it.attributes A) _ hqw]
    show Except.ok (items ++ [w], dbus.ItemPath collectionName w.id, []) = _
    rw [hw_id]
  · rw [List.countP_append]
    have h0 : items.countP (fun it => attributesMatch it.attributes A) = 0 := by
      rw [List.countP_eq_zero]
      intro it hit
      simp [hclean it hit]
    rw [h0]
    simp [List.countP_cons, hqw]
  · intro it hit hmatch
    rcases List.mem_append.mp hit with h | h
    · rw [hclean it h] at hmatch
      exact absurd hmatch (by simp)
    · rw [List.mem_singleton.mp h]
      exact hw_secret

/-- Witness for C1: on an empty collection, two plain-session `CreateItem`
calls with attributes `{k: v}` and `replace = false` create exactly one
item holding the first plaintext `[7]`. -/
theorem C1_create_item_duplicate_prevention_witness :
    ∃ w : ItemData,
      w.attributes = [(['k'], ['v'])] ∧ w.secret = [7] ∧
      w.id = "i1".toList ∧
      CollectionCreateItem
        (createSession { sessions := [], exported := [] }
          CryptoSession.plain "s1".toList).1
        [] ['c']
        [("org.freedesktop.Secret.Item.Attributes".toList,
          Variant.vStrMap [(['k'], ['v'])])]
        { session := dbus.SessionPath "s1".toList, parameters := [],
          value := [7], contentType := [] }
        false "i1".toList 1 =
        .ok ([] ++ [w], dbus.ItemPath ['c'] "i1".toList,
          [("ItemCreated".toList, dbus.ItemPath ['c'] "i1".toList)]) ∧
      CollectionCreateItem
        (createSession { sessions := [], exported := [] }
          CryptoSession.plain "s1".toList).1
        ([] ++ [w]) ['c']
        [("org.freedesktop.Secret.Item.Attributes".toList,
          Variant.vStrMap [(['k'], ['v'])])]
        { session := dbus.SessionPath "s1".toList, parameters := [],
          value := [8], contentType := [] }
        false "i2".toList 2 =
        .ok ([] ++ [w], dbus.ItemPath ['c'] "i1".toList, []) ∧
      ([] ++ [w]).countP
        (fun it : ItemData =>
          attributesMatch it.attributes [(['k'], ['v'])]) = 1 ∧
      (∀ it ∈ [] ++ [w],
        attributesMatch it.attributes [(['k'], ['v'])] = true →
          it.secret = [7]) :=
  C1_create_item_duplicate_prevention
    (createSession { sessions := [], exported := [] }
      CryptoSession.plain "s1".toList).1
    [] ['c']
    [("org.freedesktop.Secret.Item.Attributes".toList,
      Variant.vStrMap [(['k'], ['v'])])]
    { session := dbus.SessionPath "s1".toList, parameters := [],
      value := [7], contentType := [] }
    { session := dbus.SessionPath "s1".toList, parameters := [],
      value := [8], contentType := [] }
    "i1".toList "i2".toList 1 2
    { id := "s1".toList, crypto := CryptoSession.plain, closed := false }
    { id := "s1".toList, crypto := CryptoSession.plain, closed := false }
    [7] [8] [(['k'], ['v'])]
    rfl rfl rfl rfl rfl (by decide) (by decide)
    (fun it hit => absurd hit (List.not_mem_nil it))
